import Mathlib

/-!
Verification of the community-tracking CRUD backend (three near-identical
single-file Express/PostgreSQL servers).  The repository contains two full
variants of the server and one truncated variant:

  * `V0` embeds the handlers of the first full variant (the file that parses
    the embedded JSON columns on read and returns only the generated id on
    create).
  * `V1` embeds the handlers of the second full variant (the file that
    returns raw rows on read and the full row on create).
  * `S` embeds the guard of the truncated variant, which is identical to the
    guard of `V1`.

The embedding models PostgreSQL tables as Lean lists of row structures, the
JavaScript `JSON.stringify` and `JSON.parse` builtins as an executable
encoder and parser over an inductive JSON value type (numbers restricted to
integers, which is all this application stores), bcrypt as a deterministic
injective tagging function, and jsonwebtoken as an invertible string
encoding of the signed claims.
-/

namespace Sistema

/-! ## JSON values

Model of the JavaScript JSON value universe as produced by `JSON.parse` and
consumed by `JSON.stringify`.  Numbers are modelled as integers: every number
this application serializes (ids, counts) is an integer.  Arrays and objects
are mutual inductives so that all recursions stay structural and
kernel-reducible. -/

mutual
inductive Json where
  | null : Json
  | bool : Bool → Json
  | num : Int → Json
  | str : String → Json
  | arr : JsonList → Json
  | obj : JsonFields → Json
deriving Repr, DecidableEq
inductive JsonList where
  | nil : JsonList
  | cons : Json → JsonList → JsonList
deriving Repr, DecidableEq
inductive JsonFields where
  | nil : JsonFields
  | cons : String → Json → JsonFields → JsonFields
deriving Repr, DecidableEq
end

def JsonList.ofList : List Json → JsonList
  | [] => .nil
  | v :: vs => .cons v (JsonList.ofList vs)

def JsonList.toList : JsonList → List Json
  | .nil => []
  | .cons v vs => v :: vs.toList

theorem JsonList.toList_ofList (l : List Json) : (JsonList.ofList l).toList = l := by
  induction l with
  | nil => rfl
  | cons v vs ih => simp [JsonList.ofList, JsonList.toList, ih]

def JsonFields.ofList : List (String × Json) → JsonFields
  | [] => .nil
  | (k, v) :: fs => .cons k v (JsonFields.ofList fs)

/-- First-match field lookup, as JavaScript property access on a parsed
JSON object (`JSON.parse` keeps the first occurrence of a duplicated key in
the sense that later keys overwrite; the rows built here never repeat a
key, so first-match is adequate). -/
def JsonFields.lookup : JsonFields → String → Option Json
  | .nil, _ => none
  | .cons k v tl, key => if k = key then some v else tl.lookup key

/-- Field access on a JSON value: `some` only for objects that carry the key. -/
def Json.getField : Json → String → Option Json
  | .obj fs, key => fs.lookup key
  | _, _ => none

def Json.isNull : Json → Bool
  | .null => true
  | _ => false

/-- Convenience: object literal from a list of fields. -/
def objOf (l : List (String × Json)) : Json := .obj (JsonFields.ofList l)

/-! ## Decimal numerals -/

def digitChar (n : Nat) : Char := Char.ofNat (48 + n)

/-- Big-endian decimal digits of `n`, fuel-driven so that the definition is
structural and kernel-reducible; `natToChars` supplies sufficient fuel. -/
def natToCharsAux : Nat → Nat → List Char
  | 0, _ => []
  | f + 1, n => if n = 0 then [] else natToCharsAux f (n / 10) ++ [digitChar (n % 10)]

def natToChars (n : Nat) : List Char :=
  if n = 0 then ['0'] else natToCharsAux (n + 1) n

/-- Decimal rendering of an integer, as `JSON.stringify` and JavaScript
`String()` produce it for integral numbers. -/
def intToChars : Int → List Char
  | .ofNat m => natToChars m
  | .negSucc m => '-' :: natToChars (m + 1)

def intToString (n : Int) : String := String.mk (intToChars n)

def natToString (n : Nat) : String := String.mk (natToChars n)

/-- Greedy decimal scan: consumes the longest digit prefix, folding into the
accumulator. -/
def parseDigits : Nat → List Char → Nat × List Char
  | acc, [] => (acc, [])
  | acc, c :: cs =>
    if c.isDigit then parseDigits (acc * 10 + (c.toNat - 48)) cs else (acc, c :: cs)

/-- A decimal natural: succeeds only if at least one digit was consumed. -/
def parseNat (cs : List Char) : Option (Nat × List Char) :=
  let r := parseDigits 0 cs
  if r.2.length < cs.length then some r else none

/-! ## String escaping -/

def escapeChar (c : Char) : List Char :=
  if c = '"' ∨ c = '\\' then ['\\', c] else [c]

def escList (cs : List Char) : List Char := cs.flatMap escapeChar

/-- Body of a JSON string literal after the opening quote: unescapes
backslash pairs and stops at the closing quote.  The flag records whether
the previous character was an unconsumed backslash. -/
def parseStrB : Bool → List Char → Option (List Char × List Char)
  | _, [] => none
  | true, c :: rest => (parseStrB false rest).map fun p => (c :: p.1, p.2)
  | false, c :: rest =>
    if c = '"' then some ([], rest)
    else if c = '\\' then parseStrB true rest
    else (parseStrB false rest).map fun p => (c :: p.1, p.2)

def parseStrBody (cs : List Char) : Option (List Char × List Char) :=
  parseStrB false cs

/-- Expect an exact literal character sequence. -/
def expectLit : List Char → List Char → Option (List Char)
  | [], cs => some cs
  | _ :: _, [] => none
  | l :: ls, c :: cs => if c = l then expectLit ls cs else none

/-! ## Encoding (model of JSON.stringify)

Encoders take an accumulator holding the text that follows the encoded
value, so that every equation builds the output by consing onto it. -/

/-- Escaped string characters, followed by `r`. -/
def escA : List Char → List Char → List Char
  | [], r => r
  | c :: cs, r => escapeChar c ++ escA cs r

mutual
def encVA : Json → List Char → List Char
  | .null, r => 'n' :: 'u' :: 'l' :: 'l' :: r
  | .bool true, r => 't' :: 'r' :: 'u' :: 'e' :: r
  | .bool false, r => 'f' :: 'a' :: 'l' :: 's' :: 'e' :: r
  | .num n, r => intToChars n ++ r
  | .str s, r => '"' :: escA s.data ('"' :: r)
  | .arr .nil, r => '[' :: ']' :: r
  | .arr (.cons v tl), r => '[' :: encElemsA (.cons v tl) (']' :: r)
  | .obj .nil, r => '\x7b' :: '\x7d' :: r
  | .obj (.cons k v tl), r => '\x7b' :: encFieldsA (.cons k v tl) ('\x7d' :: r)
def encElemsA : JsonList → List Char → List Char
  | .nil, r => r
  | .cons v .nil, r => encVA v r
  | .cons v tl, r => encVA v (',' :: encElemsA tl r)
def encFieldsA : JsonFields → List Char → List Char
  | .nil, r => r
  | .cons k v .nil, r => '"' :: escA k.data ('"' :: ':' :: encVA v r)
  | .cons k v tl, r => '"' :: escA k.data ('"' :: ':' :: encVA v (',' :: encFieldsA tl r))
end

def encodeJson (v : Json) : String := String.mk (encVA v [])

/-! ## Parsing (model of JSON.parse, canonical form)

The parser accepts exactly the canonical texts `encV` produces (no
whitespace), which is all the repository ever stores; every text outside
this language is rejected, modelling the `JSON.parse` exception on malformed
input.  Fuel makes the mutual recursion structural. -/

mutual
def parseVal : Nat → List Char → Option (Json × List Char)
  | 0, _ => none
  | f + 1, cs =>
    match cs with
    | [] => none
    | c :: rest =>
      if c.isDigit then (parseNat (c :: rest)).map fun p => (.num (p.1 : Int), p.2)
      else if c = '-' then (parseNat rest).map fun p => (.num (-(p.1 : Int)), p.2)
      else if c = '"' then (parseStrBody rest).map fun p => (.str (String.mk p.1), p.2)
      else if c = '[' then
        if rest.head? = some ']' then some (.arr .nil, rest.tail)
        else (parseElems f rest).map fun p => (.arr p.1, p.2)
      else if c = '\x7b' then
        if rest.head? = some '\x7d' then some (.obj .nil, rest.tail)
        else (parseFields f rest).map fun p => (.obj p.1, p.2)
      else if c = 'n' then (expectLit ['u', 'l', 'l'] rest).map fun r => (.null, r)
      else if c = 't' then (expectLit ['r', 'u', 'e'] rest).map fun r => (.bool true, r)
      else if c = 'f' then (expectLit ['a', 'l', 's', 'e'] rest).map fun r => (.bool false, r)
      else none
def parseElems : Nat → List Char → Option (JsonList × List Char)
  | 0, _ => none
  | f + 1, cs =>
    match parseVal f cs with
    | none => none
    | some (v, rest) =>
      match rest with
      | ',' :: rest2 => (parseElems f rest2).map fun p => (.cons v p.1, p.2)
      | ']' :: rest2 => some (.cons v .nil, rest2)
      | _ => none
def parseFields : Nat → List Char → Option (JsonFields × List Char)
  | 0, _ => none
  | f + 1, cs =>
    match cs with
    | '"' :: cs1 =>
      match parseStrBody cs1 with
      | none => none
      | some (k, rest) =>
        match rest with
        | ':' :: rest1 =>
          match parseVal f rest1 with
          | none => none
          | some (v, rest2) =>
            match rest2 with
            | ',' :: rest3 => (parseFields f rest3).map fun p => (.cons (String.mk k) v p.1, p.2)
            | '\x7d' :: rest3 => some (.cons (String.mk k) v .nil, rest3)
            | _ => none
        | _ => none
    | _ => none
end

def decodeJson (s : String) : Option Json :=
  match parseVal (s.data.length + 1) s.data with
  | some (v, []) => some v
  | _ => none

/-! ## Round-trip: the parser inverts the encoder -/

/-- The first character, if any, is not a digit (so a greedy number scan
stops at the boundary). -/
def headND : List Char → Prop
  | [] => True
  | c :: _ => c.isDigit = false

theorem digitChar_isDigit {d : Nat} (h : d < 10) : (digitChar d).isDigit = true := by
  interval_cases d <;> decide

theorem digitChar_toNat {d : Nat} (h : d < 10) : (digitChar d).toNat - 48 = d := by
  interval_cases d <;> decide

theorem parseDigits_headND (acc : Nat) (cs : List Char) (h : headND cs) :
    parseDigits acc cs = (acc, cs) := by
  cases cs with
  | nil => rfl
  | cons c rest => simp only [parseDigits]; rw [if_neg]; simp [headND] at h; simp [h]

theorem parseDigits_suffix_le (cs : List Char) : ∀ acc, (parseDigits acc cs).2.length ≤ cs.length := by
  induction cs with
  | nil => intro acc; simp [parseDigits]
  | cons c rest ih =>
    intro acc
    simp only [parseDigits]
    by_cases hc : c.isDigit
    · rw [if_pos hc]
      exact le_trans (ih _) (by simp)
    · rw [if_neg hc]

theorem parseDigits_natToCharsAux (f : Nat) :
    ∀ n acc rest, n < f →
      ∃ k, parseDigits acc (natToCharsAux f n ++ rest) = parseDigits (acc * 10 ^ k + n) rest := by
  induction f with
  | zero => intro n acc rest h; omega
  | succ f ih =>
    intro n acc rest h
    by_cases hn : n = 0
    · subst hn
      refine ⟨0, ?_⟩
      simp [natToCharsAux]
    · have hdiv : n / 10 < f := by
        have h1 : n / 10 < n := Nat.div_lt_self (Nat.pos_of_ne_zero hn) (by omega)
        omega
      simp only [natToCharsAux, if_neg hn, List.append_assoc, List.cons_append, List.nil_append]
      obtain ⟨k, hk⟩ := ih (n / 10) acc (digitChar (n % 10) :: rest) hdiv
      refine ⟨k + 1, ?_⟩
      rw [hk]
      have hlt : n % 10 < 10 := Nat.mod_lt _ (by omega)
      simp only [parseDigits, digitChar_isDigit hlt, if_pos, digitChar_toNat hlt]
      congr 1
      have := Nat.div_add_mod n 10
      ring_nf
      omega

theorem natToCharsAux_ne_nil {f n : Nat} (hn : n ≠ 0) (hf : n < f) :
    natToCharsAux f n ≠ [] := by
  cases f with
  | zero => omega
  | succ f => simp [natToCharsAux, hn]

theorem natToChars_ne_nil (n : Nat) : natToChars n ≠ [] := by
  by_cases hn : n = 0
  · subst hn; simp [natToChars]
  · simp only [natToChars, if_neg hn]
    exact natToCharsAux_ne_nil hn (by omega)

theorem parseNat_natToChars (n : Nat) (rest : List Char) (h : headND rest) :
    parseNat (natToChars n ++ rest) = some (n, rest) := by
  have hpd : parseDigits 0 (natToChars n ++ rest) = (n, rest) := by
    by_cases hn : n = 0
    · subst hn
      rw [show natToChars 0 ++ rest = '0' :: rest from rfl]
      rw [show parseDigits 0 ('0' :: rest) = parseDigits 0 rest from rfl]
      exact parseDigits_headND 0 rest h
    · rw [show natToChars n = natToCharsAux (n + 1) n from by simp [natToChars, hn]]
      obtain ⟨k, hk⟩ := parseDigits_natToCharsAux (n + 1) n 0 rest (by omega)
      rw [hk]
      simpa using parseDigits_headND n rest h
  have hlen : rest.length < (natToChars n ++ rest).length := by
    simp only [List.length_append]
    have : 0 < (natToChars n).length := List.length_pos.mpr (natToChars_ne_nil n)
    omega
  simp only [parseNat, hpd]
  rw [if_pos hlen]

theorem natToChars_head (n : Nat) :
    ∃ c cs, natToChars n = c :: cs ∧ c.isDigit = true := by
  by_cases hn : n = 0
  · subst hn; exact ⟨'0', [], rfl, by decide⟩
  · simp only [natToChars, if_neg hn]
    suffices h : ∀ f m, m ≠ 0 → m < f → ∃ c cs, natToCharsAux f m = c :: cs ∧ c.isDigit = true by
      exact h (n + 1) n hn (by omega)
    intro f
    induction f with
    | zero => intro m hm hf; omega
    | succ f ih =>
      intro m hm hf
      simp only [natToCharsAux, if_neg hm]
      by_cases hq : m / 10 = 0
      · have h0 : natToCharsAux f 0 = [] := by cases f <;> simp [natToCharsAux]
        rw [hq, h0]
        exact ⟨digitChar (m % 10), [], by simp, digitChar_isDigit (Nat.mod_lt _ (by omega))⟩
      · have : m / 10 < f := by
          have h1 : m / 10 < m := Nat.div_lt_self (Nat.pos_of_ne_zero hm) (by omega)
          omega
        obtain ⟨c, cs, hcons, hdig⟩ := ih (m / 10) hq this
        exact ⟨c, cs ++ [digitChar (m % 10)], by rw [hcons]; simp, hdig⟩

theorem parseStrB_cons_other {c : Char} (h1 : c ≠ '"') (h2 : c ≠ '\\') (X : List Char) :
    parseStrB false (c :: X) = (parseStrB false X).map fun p => (c :: p.1, p.2) := by
  simp only [parseStrB]
  rw [if_neg h1, if_neg h2]

theorem parseStrBody_escA (l : List Char) :
    ∀ rest, parseStrBody (escA l ('"' :: rest)) = some (l, rest) := by
  unfold parseStrBody
  induction l with
  | nil => intro rest; rfl
  | cons c cs ih =>
    intro rest
    by_cases hc : c = '"' ∨ c = '\\'
    · have he : escapeChar c = ['\\', c] := by unfold escapeChar; rw [if_pos hc]
      rw [show escA (c :: cs) ('"' :: rest) = escapeChar c ++ escA cs ('"' :: rest) from rfl]
      rw [he]
      rw [show (['\\', c] ++ escA cs ('"' :: rest)) = '\\' :: c :: escA cs ('"' :: rest) from rfl]
      rw [show parseStrB false ('\\' :: c :: escA cs ('"' :: rest))
            = (parseStrB false (escA cs ('"' :: rest))).map (fun p => (c :: p.1, p.2)) from rfl]
      rw [ih rest]
      rfl
    · push_neg at hc
      have he : escapeChar c = [c] := by
        unfold escapeChar
        rw [if_neg]
        push_neg
        exact hc
      rw [show escA (c :: cs) ('"' :: rest) = escapeChar c ++ escA cs ('"' :: rest) from rfl]
      rw [he]
      rw [show ([c] ++ escA cs ('"' :: rest)) = c :: escA cs ('"' :: rest) from rfl]
      rw [parseStrB_cons_other hc.1 hc.2, ih rest]
      rfl

/-- Every encoded value starts with a character that is not a list or
object terminator. -/
theorem encVA_head (v : Json) (r : List Char) :
    ∃ c cs, encVA v r = c :: cs ∧ c ≠ ']' ∧ c ≠ '\x7d' := by
  cases v with
  | null => exact ⟨'n', _, rfl, by decide, by decide⟩
  | bool b =>
    cases b
    · exact ⟨'f', _, rfl, by decide, by decide⟩
    · exact ⟨'t', _, rfl, by decide, by decide⟩
  | num n =>
    cases n with
    | ofNat m =>
      obtain ⟨c, cs, hcons, hdig⟩ := natToChars_head m
      refine ⟨c, cs ++ r, ?_, ?_, ?_⟩
      · simp [encVA, intToChars, hcons]
      · intro hc; subst hc; simp at hdig
      · intro hc; subst hc; simp at hdig
    | negSucc m =>
      exact ⟨'-', natToChars (m + 1) ++ r, rfl, by decide, by decide⟩
  | str s => exact ⟨'"', _, rfl, by decide, by decide⟩
  | arr l =>
    cases l
    · exact ⟨'[', _, rfl, by decide, by decide⟩
    · exact ⟨'[', _, rfl, by decide, by decide⟩
  | obj fs =>
    cases fs
    · exact ⟨'\x7b', _, rfl, by decide, by decide⟩
    · exact ⟨'\x7b', _, rfl, by decide, by decide⟩

theorem encElemsA_cons_head (v : Json) (tl : JsonList) (X : List Char) :
    ∃ c cs, encElemsA (.cons v tl) X = c :: cs ∧ c ≠ ']' ∧ c ≠ '\x7d' := by
  cases tl with
  | nil => exact encVA_head v X
  | cons v2 tl2 => exact encVA_head v _

theorem encFieldsA_cons_head (k : String) (v : Json) (tl : JsonFields) (X : List Char) :
    ∃ cs, encFieldsA (.cons k v tl) X = '"' :: cs := by
  cases tl with
  | nil => exact ⟨_, rfl⟩
  | cons k2 v2 tl2 => exact ⟨_, rfl⟩

mutual
/-- Fuel needed by the parser to re-read an encoded value. -/
def needV : Json → Nat
  | .null => 1
  | .bool _ => 1
  | .num _ => 1
  | .str _ => 1
  | .arr l => 1 + needL l
  | .obj fs => 1 + needF fs
def needL : JsonList → Nat
  | .nil => 0
  | .cons v tl => 1 + needV v + needL tl
def needF : JsonFields → Nat
  | .nil => 0
  | .cons _ v tl => 1 + needV v + needF tl
end

theorem needV_pos (v : Json) : 1 ≤ needV v := by
  cases v <;> simp [needV]

theorem headND_cons {c : Char} (h : c.isDigit = false) (X : List Char) : headND (c :: X) := h

theorem parseVal_digitStep (f : Nat) {c : Char} (h : c.isDigit = true) (X : List Char) :
    parseVal (f + 1) (c :: X) = (parseNat (c :: X)).map fun p => ((.num (p.1 : Int) : Json), p.2) := by
  simp only [parseVal]
  rw [if_pos h]

theorem parseVal_negStep (f : Nat) (X : List Char) :
    parseVal (f + 1) ('-' :: X) = (parseNat X).map fun p => ((.num (-(p.1 : Int)) : Json), p.2) := rfl

theorem parseVal_strStep (f : Nat) (X : List Char) :
    parseVal (f + 1) ('"' :: X) = (parseStrBody X).map fun p => ((.str (String.mk p.1) : Json), p.2) := rfl

theorem parseVal_arrStep (f : Nat) (X : List Char) :
    parseVal (f + 1) ('[' :: X) =
      if X.head? = some ']' then some (.arr .nil, X.tail)
      else (parseElems f X).map fun p => ((.arr p.1 : Json), p.2) := rfl

theorem parseVal_objStep (f : Nat) (X : List Char) :
    parseVal (f + 1) ('\x7b' :: X) =
      if X.head? = some '\x7d' then some (.obj .nil, X.tail)
      else (parseFields f X).map fun p => ((.obj p.1 : Json), p.2) := rfl

/-- The parser inverts the encoder, for any fuel at least the need of the
value and any trailing text that does not begin with a digit. -/
theorem parse_encVA (f : Nat) :
    (∀ v rest, needV v ≤ f → headND rest → parseVal f (encVA v rest) = some (v, rest)) ∧
    (∀ v tl rest, needL (.cons v tl) ≤ f →
       parseElems f (encElemsA (.cons v tl) (']' :: rest)) = some (.cons v tl, rest)) ∧
    (∀ k v tl rest, needF (.cons k v tl) ≤ f →
       parseFields f (encFieldsA (.cons k v tl) ('\x7d' :: rest)) = some (.cons k v tl, rest)) := by
  induction f with
  | zero =>
    refine ⟨?_, ?_, ?_⟩
    · intro v rest h _
      exact absurd h (by have := needV_pos v; omega)
    · intro v tl rest h
      simp only [needL] at h
      omega
    · intro k v tl rest h
      simp only [needF] at h
      omega
  | succ f ih =>
    obtain ⟨ihP, ihQ, ihR⟩ := ih
    refine ⟨?_, ?_, ?_⟩
    · intro v rest hf hnd
      cases v with
      | null => rfl
      | bool b => cases b <;> rfl
      | num n =>
        cases n with
        | ofNat m =>
          obtain ⟨c, cs, hcons, hdig⟩ := natToChars_head m
          rw [show encVA (.num (.ofNat m)) rest = natToChars m ++ rest from rfl, hcons,
            List.cons_append, parseVal_digitStep f hdig, ← List.cons_append, ← hcons,
            parseNat_natToChars m rest hnd]
          rfl
        | negSucc m =>
          rw [show encVA (.num (.negSucc m)) rest = '-' :: (natToChars (m + 1) ++ rest) from rfl,
            parseVal_negStep, parseNat_natToChars (m + 1) rest hnd]
          have hneg : (-(((m + 1 : Nat) : Int))) = Int.negSucc m := by
            rw [Int.negSucc_eq]
            norm_cast
          rw [← hneg]
          rfl
      | str s =>
        rw [show encVA (.str s) rest = '"' :: escA s.data ('"' :: rest) from rfl,
          parseVal_strStep, parseStrBody_escA]
        rfl
      | arr l =>
        cases l with
        | nil => rfl
        | cons v tl =>
          rw [show encVA (.arr (.cons v tl)) rest
                = '[' :: encElemsA (.cons v tl) (']' :: rest) from rfl,
            parseVal_arrStep]
          obtain ⟨c, cs, hcons, hc1, _⟩ := encElemsA_cons_head v tl (']' :: rest)
          rw [hcons, if_neg (by simp [hc1]), ← hcons,
            ihQ v tl rest (by simp only [needV] at hf; omega)]
          rfl
      | obj fs =>
        cases fs with
        | nil => rfl
        | cons k v tl =>
          rw [show encVA (.obj (.cons k v tl)) rest
                = '\x7b' :: encFieldsA (.cons k v tl) ('\x7d' :: rest) from rfl,
            parseVal_objStep]
          obtain ⟨cs, hcons⟩ := encFieldsA_cons_head k v tl ('\x7d' :: rest)
          rw [hcons, if_neg (by simp), ← hcons,
            ihR k v tl rest (by simp only [needV] at hf; omega)]
          rfl
    · intro v tl rest h
      cases tl with
      | nil =>
        have h1 : needV v ≤ f := by simp only [needL] at h; omega
        rw [show encElemsA (.cons v .nil) (']' :: rest) = encVA v (']' :: rest) from rfl]
        simp only [parseElems]
        rw [ihP v (']' :: rest) h1 (headND_cons (by decide) rest)]
        rfl
      | cons v2 tl2 =>
        have h1 : needV v ≤ f := by simp only [needL] at h; omega
        have h2 : needL (.cons v2 tl2) ≤ f := by simp only [needL] at h ⊢; omega
        rw [show encElemsA (.cons v (.cons v2 tl2)) (']' :: rest)
              = encVA v (',' :: encElemsA (.cons v2 tl2) (']' :: rest)) from rfl]
        simp only [parseElems]
        rw [ihP v _ h1 (headND_cons (by decide) _)]
        simp only []
        rw [ihQ v2 tl2 rest h2]
        rfl
    · intro k v tl rest h
      cases tl with
      | nil =>
        have h1 : needV v ≤ f := by simp only [needF] at h; omega
        rw [show encFieldsA (.cons k v .nil) ('\x7d' :: rest)
              = '"' :: escA k.data ('"' :: ':' :: encVA v ('\x7d' :: rest)) from rfl]
        simp only [parseFields]
        rw [parseStrBody_escA]
        simp only []
        rw [ihP v _ h1 (headND_cons (by decide) _)]
        rfl
      | cons k2 v2 tl2 =>
        have h1 : needV v ≤ f := by simp only [needF] at h; omega
        have h2 : needF (.cons k2 v2 tl2) ≤ f := by simp only [needF] at h ⊢; omega
        rw [show encFieldsA (.cons k v (.cons k2 v2 tl2)) ('\x7d' :: rest)
              = '"' :: escA k.data ('"' :: ':' :: encVA v
                  (',' :: encFieldsA (.cons k2 v2 tl2) ('\x7d' :: rest))) from rfl]
        simp only [parseFields]
        rw [parseStrBody_escA]
        simp only []
        rw [ihP v _ h1 (headND_cons (by decide) _)]
        simp only []
        rw [ihR k2 v2 tl2 rest h2]
        rfl

theorem escA_length_ge (l : List Char) : ∀ X, X.length ≤ (escA l X).length := by
  induction l with
  | nil => intro X; simp [escA]
  | cons c cs ih =>
    intro X
    simp only [escA, escapeChar]
    by_cases hc : c = '"' ∨ c = '\\'
    · rw [if_pos hc]
      have := ih X
      simp only [List.cons_append, List.nil_append, List.length_cons]
      omega
    · rw [if_neg hc]
      have := ih X
      simp only [List.cons_append, List.nil_append, List.length_cons]
      omega

/-- The need of a value never exceeds the length its encoding adds. -/
theorem needV_le_encVA_aux (n : Nat) :
    (∀ v r, needV v ≤ n → needV v + r.length ≤ (encVA v r).length) ∧
    (∀ v tl X, needL (.cons v tl) ≤ n →
       needL (.cons v tl) + X.length ≤ (encElemsA (.cons v tl) X).length + 1) ∧
    (∀ k v tl X, needF (.cons k v tl) ≤ n →
       needF (.cons k v tl) + X.length ≤ (encFieldsA (.cons k v tl) X).length + 1) := by
  induction n with
  | zero =>
    refine ⟨?_, ?_, ?_⟩
    · intro v r h
      exact absurd h (by have := needV_pos v; omega)
    · intro v tl X h
      simp only [needL] at h
      omega
    · intro k v tl X h
      simp only [needF] at h
      omega
  | succ n ih =>
    obtain ⟨ihP, ihQ, ihR⟩ := ih
    refine ⟨?_, ?_, ?_⟩
    · intro v r h
      cases v with
      | null => simp only [needV, encVA, List.length_cons]; omega
      | bool b =>
        cases b <;> (simp only [needV, encVA, List.length_cons]; omega)
      | num m =>
        have hpos : ∀ j : Nat, 1 ≤ (natToChars j).length := by
          intro j
          have := natToChars_ne_nil j
          cases hj : natToChars j
          · exact absurd hj this
          · simp
        cases m with
        | ofNat j =>
          have := hpos j
          simp only [needV, encVA, intToChars, List.length_append]
          omega
        | negSucc j =>
          have := hpos (j + 1)
          simp only [needV, encVA, intToChars, List.cons_append, List.length_cons,
            List.length_append]
          omega
      | str s =>
        have := escA_length_ge s.data ('"' :: r)
        simp only [needV, encVA, List.length_cons] at this ⊢
        omega
      | arr l =>
        cases l with
        | nil => simp only [needV, needL, encVA, List.length_cons]; omega
        | cons v2 tl2 =>
          have hq := ihQ v2 tl2 (']' :: r) (by simp only [needV] at h; omega)
          simp only [needV, encVA, List.length_cons] at hq ⊢
          omega
      | obj fs =>
        cases fs with
        | nil => simp only [needV, needF, encVA, List.length_cons]; omega
        | cons k2 v2 tl2 =>
          have hr := ihR k2 v2 tl2 ('\x7d' :: r) (by simp only [needV] at h; omega)
          simp only [needV, encVA, List.length_cons] at hr ⊢
          omega
    · intro v tl X h
      cases tl with
      | nil =>
        have hp := ihP v X (by simp only [needL] at h; omega)
        simp only [needL, encElemsA] at *
        omega
      | cons v2 tl2 =>
        have hq := ihQ v2 tl2 X (by simp only [needL] at h ⊢; omega)
        have hp := ihP v (',' :: encElemsA (.cons v2 tl2) X)
          (by simp only [needL] at h; omega)
        simp only [needL, encElemsA, List.length_cons] at *
        omega
    · intro k v tl X h
      cases tl with
      | nil =>
        have hp := ihP v X (by simp only [needF] at h; omega)
        have hesc := escA_length_ge k.data ('"' :: ':' :: encVA v X)
        simp only [needF, encFieldsA, List.length_cons] at *
        omega
      | cons k2 v2 tl2 =>
        have hr := ihR k2 v2 tl2 X (by simp only [needF] at h ⊢; omega)
        have hp := ihP v (',' :: encFieldsA (.cons k2 v2 tl2) X)
          (by simp only [needF] at h; omega)
        have hesc := escA_length_ge k.data
          ('"' :: ':' :: encVA v (',' :: encFieldsA (.cons k2 v2 tl2) X))
        simp only [needF, encFieldsA, List.length_cons] at *
        omega

theorem needV_le_encVA (v : Json) (r : List Char) :
    needV v + r.length ≤ (encVA v r).length :=
  (needV_le_encVA_aux (needV v)).1 v r le_rfl

/-- JSON.parse inverts JSON.stringify on every value of the model. -/
theorem decode_encode (v : Json) : decodeJson (encodeJson v) = some v := by
  have hlen : needV v ≤ (encVA v []).length := by
    have := needV_le_encVA v []
    simpa using this
  have h := (parse_encVA ((encVA v []).length + 1)).1 v [] (by omega) trivial
  simp only [decodeJson, encodeJson]
  rw [h]

/-! ## External-library models: bcrypt and jsonwebtoken

The servers delegate hashing to `bcrypt` (cost 10) and session tokens to
`jsonwebtoken`.  Both are modelled as deterministic executable functions
that keep the library contract visible to the handlers: `bcryptCompare`
accepts exactly the strings `bcryptHash` produces for the same password,
and `jwtVerify` recovers exactly the claims `jwtSign` signed, provided the
secret matches and the token has not expired. -/

/-- Deterministic model of `bcrypt.hash(password, 10)`: an injective tag
that is never equal to the plaintext (the real hash is salted; determinism
is irrelevant to the verified properties, which never compare two hashes of
different calls). -/
def bcryptHash (password : String) : String := "$2b$10$" ++ password

/-- Model of `bcrypt.compare(password, hash)`. -/
def bcryptCompare (password hash : String) : Bool := hash = bcryptHash password

theorem bcryptHash_ne_plaintext (p : String) : bcryptHash p ≠ p := by
  intro h
  have h2 : (bcryptHash p).data.length = p.data.length := by rw [h]
  have h3 : (bcryptHash p).data = "$2b$10$".data ++ p.data := rfl
  have h4 : ("$2b$10$".data).length = 7 := rfl
  rw [h3, List.length_append, h4] at h2
  omega

/-- The hardcoded fallback signing secret of all three server variants. -/
def SECRET : String := "c8f3d7b2c0a948cfa2e4eab7f1e6a92e1d4f3c7a99b24e8f5c1e76a3d2f9b8c1"

/-- The claims the servers embed in a session token: user id, email and
admin flag (`gerarToken`). -/
structure Claims where
  id : Nat
  email : String
  is_admin : Bool
deriving Repr, DecidableEq

/-- JavaScript `String.prototype.split` with a single-character separator. -/
def splitAux (sep : Char) : List Char → List Char → List (List Char)
  | [], acc => [acc.reverse]
  | c :: cs, acc =>
    if c = sep then acc.reverse :: splitAux sep cs [] else splitAux sep cs (c :: acc)

def splitStr (s : String) (sep : Char) : List String :=
  (splitAux sep s.data []).map fun l => String.mk l

def charsToNat? (cs : List Char) : Option Nat :=
  match parseNat cs with
  | some (n, []) => some n
  | _ => none

/-- Model of `jwt.sign(claims, secret, expiresIn 7d)` (`gerarToken`): the
token is an invertible rendering of the claims, the expiry timestamp
(issue time plus seven days, in seconds) and the signing secret. -/
def jwtSign (c : Claims) (secret : String) (now : Nat) : String :=
  String.mk (natToChars c.id) ++ "|" ++ c.email ++ "|" ++
    (if c.is_admin then "1" else "0") ++ "|" ++
    String.mk (natToChars (now + 7 * 24 * 3600)) ++ "|" ++ secret

/-- Model of `jwt.verify(token, secret)` at time `now`: recovers the claims
iff the embedded secret matches and the token is not expired; every other
string is rejected (the library exception). -/
def jwtVerify (token secret : String) (now : Nat) : Option Claims :=
  match (splitAux '|' token.data []).map (fun l => String.mk l) with
  | [idS, email, adminS, expS, sec] =>
    match charsToNat? idS.data, charsToNat? expS.data with
    | some id, some exp =>
      if sec = secret ∧ now ≤ exp ∧ (adminS = "1" ∨ adminS = "0") then
        some ⟨id, email, adminS = "1"⟩
      else none
    | _, _ => none
  | _ => none

/-! ## Persistence schema

The four tables created by `initDb`, as lists of row records in insertion
order.  Serial ids are modelled by the `next...` counters. -/

structure UserRow where
  id : Nat
  name : String
  email : String
  password : String
  is_admin : Bool
deriving Repr, DecidableEq

structure EtapaRow where
  id : Nat
  nome : String
deriving Repr, DecidableEq

structure CarismaRow where
  id : Nat
  nome : String
deriving Repr, DecidableEq

structure ComunidadeRow where
  id : Nat
  numero_comunidade : Option String
  nome_diocese : Option String
  nome_bispo : Option String
  nome_cidade : Option String
  nome_paroquia : Option String
  nome_paroco : Option String
  nome_vigario : Option String
  qtd_total : Option Int
  qtd_jovens : Option Int
  etapa_id : Option Int
  data_formacao : Option String
  data_ultima_etapa : Option String
  levantados_json : Option String
  carismas_json : Option String
deriving Repr, DecidableEq

structure DB where
  users : List UserRow
  etapas : List EtapaRow
  carismas : List CarismaRow
  comunidades : List ComunidadeRow
  nextUserId : Nat
  nextComunidadeId : Nat
deriving Repr, DecidableEq

/-! ## JavaScript truthiness helpers

`x || d` on an optional string or number: `undefined`, the empty string and
the number 0 are falsy. -/

def truthyS : Option String → Bool
  | none => false
  | some s => s ≠ ""

def strOr (x : Option String) (d : String) : String :=
  match x with
  | none => d
  | some s => if s = "" then d else s

def strOrNull (x : Option String) : Option String :=
  match x with
  | none => none
  | some s => if s = "" then none else some s

def intOr (x : Option Int) (d : Int) : Int :=
  match x with
  | none => d
  | some v => if v = 0 then d else v

def intOrNull (x : Option Int) : Option Int :=
  match x with
  | none => none
  | some v => if v = 0 then none else some v

/-! ## HTTP responses -/

/-- An Express JSON response: status code and JSON body. -/
structure Resp where
  status : Nat
  body : Json
deriving Repr, DecidableEq

def errJson (msg : String) : Json := objOf [("error", .str msg)]

def okJson : Json := objOf [("ok", .bool true)]

/-- Outcome of the `verificarToken` middleware. -/
inductive GuardResult where
  | denied : Resp → GuardResult
  | allowed : Claims → GuardResult
deriving Repr, DecidableEq

/-! ## Request bodies -/

structure RegisterBody where
  name : Option String := none
  email : Option String := none
  password : Option String := none
  is_admin : Option Bool := none
deriving Repr, DecidableEq

structure UserUpdateBody where
  name : Option String := none
  email : Option String := none
  password : Option String := none
deriving Repr, DecidableEq

structure ComunidadeBody where
  numero_comunidade : Option String := none
  nome_diocese : Option String := none
  nome_bispo : Option String := none
  nome_cidade : Option String := none
  nome_paroquia : Option String := none
  nome_paroco : Option String := none
  nome_vigario : Option String := none
  qtd_total : Option Int := none
  qtd_jovens : Option Int := none
  etapa_id : Option Int := none
  data_formacao : Option String := none
  data_ultima_etapa : Option String := none
  levantados : Option (List Json) := none
  carismas : Option (List Json) := none
deriving Repr, DecidableEq

/-! ## Shared row rendering -/

def jNullStr : Option String → Json
  | none => .null
  | some s => .str s

def jNullInt : Option Int → Json
  | none => .null
  | some n => .num n

/-- A `comunidades` row as the pg driver hands it to `res.json`: every
column of the table, in declaration order. -/
def rowFieldsList (r : ComunidadeRow) : List (String × Json) :=
  [("id", .num (r.id : Int)),
   ("numero_comunidade", jNullStr r.numero_comunidade),
   ("nome_diocese", jNullStr r.nome_diocese),
   ("nome_bispo", jNullStr r.nome_bispo),
   ("nome_cidade", jNullStr r.nome_cidade),
   ("nome_paroquia", jNullStr r.nome_paroquia),
   ("nome_paroco", jNullStr r.nome_paroco),
   ("nome_vigario", jNullStr r.nome_vigario),
   ("qtd_total", jNullInt r.qtd_total),
   ("qtd_jovens", jNullInt r.qtd_jovens),
   ("etapa_id", jNullInt r.etapa_id),
   ("data_formacao", jNullStr r.data_formacao),
   ("data_ultima_etapa", jNullStr r.data_ultima_etapa),
   ("levantados_json", jNullStr r.levantados_json),
   ("carismas_json", jNullStr r.carismas_json)]

/-- `JSON.parse(col || '[]')`: a NULL or empty stored text is replaced by
the literal text of an empty list before parsing; parsing a malformed text
throws (`none`). -/
def decodeListCol (col : Option String) : Option Json :=
  decodeJson (match col with
    | none => "[]"
    | some s => if s = "" then "[]" else s)

/-- Foreign-key check for `comunidades.etapa_id REFERENCES etapas(id)`:
NULL always passes, a value must name an existing stage. -/
def fkOk (db : DB) (e : Option Int) : Bool :=
  match e with
  | none => true
  | some v => db.etapas.any fun t => (t.id : Int) == v

/-- `jwt.sign` as called by all variants (`gerarToken`). -/
def gerarToken (user : UserRow) (now : Nat) : String :=
  jwtSign ⟨user.id, user.email, user.is_admin⟩ SECRET now

/-! ## V0: the first full server variant -/

namespace V0

/-- The guard of the first full variant: requires a header that splits on
single spaces into exactly two words and verifies the second word; the
first word is never inspected. -/
def verificarToken (authHeader : Option String) (now : Nat) : GuardResult :=
  match authHeader with
  | none => .denied ⟨401, errJson "Sem token"⟩
  | some header =>
    if header = "" then .denied ⟨401, errJson "Sem token"⟩
    else
      match splitStr header ' ' with
      | [_, token] =>
        match jwtVerify token SECRET now with
        | some claims => .allowed claims
        | none => .denied ⟨401, errJson "Token inválido"⟩
      | _ => .denied ⟨401, errJson "Token inválido"⟩

/-- The user row inserted by a successful register call. -/
def mkUser (db : DB) (body : RegisterBody) : UserRow :=
  { id := db.nextUserId
    name := body.name.getD ""
    email := body.email.getD ""
    password := bcryptHash (body.password.getD "")
    is_admin := body.is_admin.getD false }

/-- POST /api/register. -/
def register (db : DB) (body : RegisterBody) (now : Nat) : DB × Resp :=
  if ¬ (truthyS body.email ∧ truthyS body.password) then
    (db, ⟨400, errJson "Email e senha obrigatórios"⟩)
  else
    let u := mkUser db body
    if db.users.any (fun v => v.email == u.email) then
      (db, ⟨400, errJson "Email já cadastrado"⟩)
    else
      ({ db with users := db.users ++ [u], nextUserId := db.nextUserId + 1 },
       ⟨200, objOf [("token", .str (gerarToken u now)),
                    ("user", objOf [("id", .num (u.id : Int)),
                                    ("email", .str u.email),
                                    ("is_admin", .bool u.is_admin)])]⟩)

/-- POST /api/login (identical in the first variant and the truncated
variant). -/
def login (db : DB) (email password : String) (now : Nat) : Resp :=
  match db.users.find? (fun u => u.email == email) with
  | none => ⟨400, errJson "Usuário não encontrado"⟩
  | some user =>
    if ¬ bcryptCompare password user.password then ⟨400, errJson "Senha incorreta"⟩
    else
      ⟨200, objOf [("token", .str (gerarToken user now)),
                   ("user", objOf [("id", .num (user.id : Int)),
                                   ("email", .str user.email),
                                   ("name", .str user.name),
                                   ("is_admin", .bool user.is_admin)])]⟩

/-- PUT /api/user: the stored row after a successful self-update. -/
def updatedUser (u : UserRow) (body : UserUpdateBody) : UserRow :=
  { u with
    name := strOr body.name u.name
    email := strOr body.email u.email
    password := if truthyS body.password then bcryptHash (body.password.getD "") else u.password }

/-- PUT /api/user. -/
def updateUser (db : DB) (userId : Nat) (body : UserUpdateBody) : DB × Resp :=
  match db.users.find? (fun u => u.id == userId) with
  | none => (db, ⟨404, errJson "Usuário não encontrado"⟩)
  | some u =>
    let u2 := updatedUser u body
    if db.users.any (fun v => !(v.id == userId) && (v.email == u2.email)) then
      (db, ⟨400, errJson "Erro ao atualizar (email pode já estar em uso)"⟩)
    else
      ({ db with users := db.users.map fun v => if v.id == userId then updatedUser v body else v },
       ⟨200, okJson⟩)

/-- The row inserted or written by the first variant: numeric fields
defaulted with `|| 0`, stage and dates with `|| null`, embedded lists
serialized with `JSON.stringify(x || [])`. -/
def newRow (id : Nat) (body : ComunidadeBody) : ComunidadeRow :=
  { id := id
    numero_comunidade := body.numero_comunidade
    nome_diocese := body.nome_diocese
    nome_bispo := body.nome_bispo
    nome_cidade := body.nome_cidade
    nome_paroquia := body.nome_paroquia
    nome_paroco := body.nome_paroco
    nome_vigario := body.nome_vigario
    qtd_total := some (intOr body.qtd_total 0)
    qtd_jovens := some (intOr body.qtd_jovens 0)
    etapa_id := intOrNull body.etapa_id
    data_formacao := strOrNull body.data_formacao
    data_ultima_etapa := strOrNull body.data_ultima_etapa
    levantados_json := some (encodeJson (.arr (JsonList.ofList (body.levantados.getD []))))
    carismas_json := some (encodeJson (.arr (JsonList.ofList (body.carismas.getD [])))) }

/-- POST /api/comunidades: no try/catch around the insert, so a failing
insert (foreign-key violation) escapes the handler (`Except.error`);
responds with only the generated id. -/
def postComunidades (db : DB) (body : ComunidadeBody) : Except Unit (DB × Resp) :=
  if fkOk db (intOrNull body.etapa_id) then
    .ok
      ({ db with
         comunidades := db.comunidades ++ [newRow db.nextComunidadeId body]
         nextComunidadeId := db.nextComunidadeId + 1 },
       ⟨200, objOf [("id", .num (db.nextComunidadeId : Int))]⟩)
  else .error ()

/-- One listed row: the raw columns spread together with the two decoded
list fields; a malformed stored text makes `JSON.parse` throw. -/
def rowWithParsed (r : ComunidadeRow) : Option Json :=
  match decodeListCol r.levantados_json, decodeListCol r.carismas_json with
  | some lev, some car =>
    some (objOf (rowFieldsList r ++ [("levantados", lev), ("carismas", car)]))
  | _, _ => none

def optMapList (f : α → Option β) : List α → Option (List β)
  | [] => some []
  | x :: xs =>
    match f x, optMapList f xs with
    | some y, some ys => some (y :: ys)
    | _, _ => none

/-- GET /api/comunidades: all rows by descending id (ids are assigned in
increasing insertion order, so the stored list is reversed), each with the
two embedded lists decoded. -/
def getComunidades (db : DB) : Except Unit Resp :=
  match optMapList rowWithParsed db.comunidades.reverse with
  | some rows => .ok ⟨200, .arr (JsonList.ofList rows)⟩
  | none => .error ()

/-- GET /api/comunidades/:id. -/
def getComunidadeById (db : DB) (id : Nat) : Except Unit Resp :=
  match db.comunidades.find? (fun r => r.id == id) with
  | none => .ok ⟨404, errJson "Não encontrado"⟩
  | some row =>
    match rowWithParsed row with
    | some body => .ok ⟨200, body⟩
    | none => .error ()

/-- PUT /api/comunidades/:id: full replace of every column of every row
matching the id; no row-count check, `{ok:true}` regardless; no try/catch,
so a failing update (foreign-key violation on a matched row) escapes. -/
def putComunidades (db : DB) (id : Nat) (body : ComunidadeBody) : Except Unit (DB × Resp) :=
  if db.comunidades.any (fun r => r.id == id) then
    if fkOk db (intOrNull body.etapa_id) then
      .ok ({ db with comunidades := db.comunidades.map fun r =>
               if r.id == id then newRow r.id body else r },
           ⟨200, okJson⟩)
    else .error ()
  else .ok (db, ⟨200, okJson⟩)

/-- DELETE /api/comunidades/:id: unconditional delete, `{ok:true}`. -/
def deleteComunidades (db : DB) (id : Nat) : DB × Resp :=
  ({ db with comunidades := db.comunidades.filter fun r => !(r.id == id) }, ⟨200, okJson⟩)

mutual
/-- JavaScript `String(x)` as used for object keys by the tally
(`contagem[item.carisma_id]`). -/
def jsToKey : Json → String
  | .null => "null"
  | .bool true => "true"
  | .bool false => "false"
  | .num n => intToString n
  | .str s => s
  | .arr l => jsArrJoin l
  | .obj _ => "[object Object]"
def jsArrJoin : JsonList → String
  | .nil => ""
  | .cons .null .nil => ""
  | .cons x .nil => jsToKey x
  | .cons .null tl => "," ++ jsArrJoin tl
  | .cons x tl => jsToKey x ++ "," ++ jsArrJoin tl
end

/-- `item.carisma_id` coerced to a property key.  Property access on `null`
throws a TypeError (`Except.error`); on any non-object it yields
`undefined`, whose key is the string below. -/
def itemKey : Json → Except Unit String
  | .null => .error ()
  | .obj fs =>
    .ok (match fs.lookup "carisma_id" with
      | some v => jsToKey v
      | none => "undefined")
  | _ => .ok "undefined"

/-- Pure reading of `itemKey` for rows known not to contain null items. -/
def itemKeyD (i : Json) : String :=
  match itemKey i with
  | .ok k => k
  | .error _ => ""

/-- A stored `carismas_json` column decoded for iteration: `for..of`
requires an array (a non-array or malformed text throws). -/
def decodeArr (col : Option String) : Except Unit (List Json) :=
  match decodeListCol col with
  | some (.arr l) => .ok l.toList
  | _ => .error ()

/-- The items of a row, when its column decodes to an array. -/
def rowItemsD (r : ComunidadeRow) : List Json :=
  match decodeArr r.carismas_json with
  | .ok l => l
  | .error _ => []

/-- The tally loop body over the items of one decoded list. -/
def tallyList : List Json → (String → Nat) → Except Unit (String → Nat)
  | [], m => .ok m
  | i :: is, m =>
    match itemKey i with
    | .error _ => .error ()
    | .ok k => tallyList is fun k2 => if k2 = k then m k + 1 else m k2

/-- The outer tally loop over all community rows. -/
def tallyRows : List ComunidadeRow → (String → Nat) → Except Unit (String → Nat)
  | [], m => .ok m
  | r :: rs, m =>
    match decodeArr r.carismas_json with
    | .error _ => .error ()
    | .ok items =>
      match tallyList items m with
      | .error _ => .error ()
      | .ok m2 => tallyRows rs m2

/-- GET /api/relatorios/carismas: admin-gated; tallies every decoded
charism association by `String(item.carisma_id)` and then maps the whole
charism enumeration, reading `contagem[c.id] || 0`. -/
def relatorioCarismas (db : DB) (user : Claims) : Except Unit Resp :=
  if ¬ user.is_admin then .ok ⟨403, errJson "Acesso restrito"⟩
  else
    match tallyRows db.comunidades (fun _ => 0) with
    | .error _ => .error ()
    | .ok contagem =>
      .ok ⟨200, .arr (JsonList.ofList (db.carismas.map fun c =>
            objOf [("nome", .str c.nome),
                   ("total", .num (contagem (intToString (c.id : Int)) : Int))]))⟩

/-- Create a community and immediately fetch it by the returned id. -/
def createThenGet (db : DB) (body : ComunidadeBody) : Except Unit Resp :=
  match postComunidades db body with
  | .error _ => .error ()
  | .ok (db2, _) => getComunidadeById db2 db.nextComunidadeId

end V0

/-! ## S: the guard shared by the truncated variant and the second full
variant -/

namespace S

/-- The guard of the other two variants: takes `header.split(' ')[1]`
without checking the number of parts; a missing second part is an undefined
token, which `jwt.verify` rejects. -/
def verificarToken (authHeader : Option String) (now : Nat) : GuardResult :=
  match authHeader with
  | none => .denied ⟨401, errJson "Sem token"⟩
  | some header =>
    if header = "" then .denied ⟨401, errJson "Sem token"⟩
    else
      match splitStr header ' ' with
      | _ :: token :: _ =>
        match jwtVerify token SECRET now with
        | some claims => .allowed claims
        | none => .denied ⟨401, errJson "Token inválido"⟩
      | _ => .denied ⟨401, errJson "Token inválido"⟩

end S

/-! ## V1: the second full server variant -/

namespace V1

/-- The row inserted or written by the second variant: numeric fields,
stage and dates are passed through raw (an absent field is stored as NULL),
only the embedded lists are defaulted with `JSON.stringify(x || [])`. -/
def newRow (id : Nat) (body : ComunidadeBody) : ComunidadeRow :=
  { id := id
    numero_comunidade := body.numero_comunidade
    nome_diocese := body.nome_diocese
    nome_bispo := body.nome_bispo
    nome_cidade := body.nome_cidade
    nome_paroquia := body.nome_paroquia
    nome_paroco := body.nome_paroco
    nome_vigario := body.nome_vigario
    qtd_total := body.qtd_total
    qtd_jovens := body.qtd_jovens
    etapa_id := body.etapa_id
    data_formacao := body.data_formacao
    data_ultima_etapa := body.data_ultima_etapa
    levantados_json := some (encodeJson (.arr (JsonList.ofList (body.levantados.getD []))))
    carismas_json := some (encodeJson (.arr (JsonList.ofList (body.carismas.getD [])))) }

/-- POST /api/comunidades of the second variant: the insert is wrapped in
try/catch (a failure responds 400) and the response is the full stored row
(`RETURNING *`). -/
def postComunidades (db : DB) (body : ComunidadeBody) : DB × Resp :=
  if fkOk db body.etapa_id then
    ({ db with
        comunidades := db.comunidades ++ [newRow db.nextComunidadeId body]
        nextComunidadeId := db.nextComunidadeId + 1 },
     ⟨200, objOf (rowFieldsList (newRow db.nextComunidadeId body))⟩)
  else (db, ⟨400, errJson "Erro ao criar comunidade"⟩)

/-- GET /api/comunidades/:id of the second variant: returns the raw row,
without decoding the embedded lists. -/
def getComunidadeById (db : DB) (id : Nat) : Resp :=
  match db.comunidades.find? (fun r => r.id == id) with
  | none => ⟨404, errJson "Comunidade não encontrada"⟩
  | some row => ⟨200, objOf (rowFieldsList row)⟩

/-- PUT /api/comunidades/:id of the second variant: try/catch around the
update; `RETURNING *` hands back the first updated row, and when no row
matches, `res.json(r.rows[0])` serializes `undefined` (an empty 200
response, modelled as a null body). -/
def putComunidades (db : DB) (id : Nat) (body : ComunidadeBody) : DB × Resp :=
  match db.comunidades.find? (fun r => r.id == id) with
  | none => (db, ⟨200, .null⟩)
  | some r =>
    if fkOk db body.etapa_id then
      ({ db with comunidades := db.comunidades.map fun r2 =>
           if r2.id == id then newRow r2.id body else r2 },
       ⟨200, objOf (rowFieldsList (newRow r.id body))⟩)
    else (db, ⟨400, errJson "Erro ao atualizar comunidade"⟩)

/-- DELETE /api/comunidades/:id of the second variant (same logic as the
first). -/
def deleteComunidades (db : DB) (id : Nat) : DB × Resp :=
  ({ db with comunidades := db.comunidades.filter fun r => !(r.id == id) }, ⟨200, okJson⟩)

/-- Create a community and immediately fetch it by its id. -/
def createThenGet (db : DB) (body : ComunidadeBody) : Resp :=
  getComunidadeById (postComunidades db body).1 db.nextComunidadeId

end V1

/-! ## Generic list lemmas used by the claim proofs -/

theorem find?_append_fresh {l : List ComunidadeRow} {idv : Nat}
    (h : ∀ r ∈ l, r.id ≠ idv) (row : ComunidadeRow) (hrow : row.id = idv) :
    (l ++ [row]).find? (fun r => r.id == idv) = some row := by
  induction l with
  | nil => simp [List.find?, hrow]
  | cons x xs ih =>
    have hx : (x.id == idv) = false := by
      simp only [beq_eq_false_iff_ne, ne_eq]
      exact h x (by simp)
    simp only [List.cons_append, List.find?, hx]
    exact ih fun r hr => h r (by simp [hr])

theorem optMapList_eq_map {f : α → Option β} {g : α → β} (l : List α)
    (h : ∀ x ∈ l, f x = some (g x)) :
    V0.optMapList f l = some (l.map g) := by
  induction l with
  | nil => rfl
  | cons x xs ih =>
    simp only [V0.optMapList, h x (by simp), List.map_cons]
    rw [ih fun y hy => h y (by simp [hy])]

theorem map_id_of_mem {l : List α} {f : α → α} (h : ∀ x ∈ l, f x = x) : l.map f = l := by
  induction l with
  | nil => rfl
  | cons x xs ih =>
    simp only [List.map_cons, h x (by simp)]
    rw [ih fun y hy => h y (by simp [hy])]

theorem find?_map_preserve {p : α → Bool} {f : α → α} (hp : ∀ x, p (f x) = p x) (l : List α) :
    (l.map f).find? p = (l.find? p).map f := by
  induction l with
  | nil => rfl
  | cons x xs ih =>
    by_cases hx : p x = true
    · simp [List.find?, hp x, hx]
    · have hx2 : p x = false := by simpa using hx
      simp [List.find?, hp x, hx2, ih]

/-- The encoded form of an array literal is never the empty string. -/
theorem encodeJson_arr_ne_empty (l : JsonList) : encodeJson (.arr l) ≠ "" := by
  have h : ∃ cs, encVA (.arr l) [] = '[' :: cs := by
    cases l
    · exact ⟨_, rfl⟩
    · exact ⟨_, rfl⟩
  obtain ⟨cs, hcs⟩ := h
  intro hcontra
  have h2 : (encodeJson (Json.arr l)).data = ([] : List Char) := by rw [hcontra]
  rw [show (encodeJson (Json.arr l)).data = encVA (Json.arr l) [] from rfl, hcs] at h2
  exact List.noConfusion h2

/-- `JSON.parse(JSON.stringify(x || []) || '[]')` recovers the list. -/
theorem decodeListCol_encode (l : JsonList) :
    decodeListCol (some (encodeJson (.arr l))) = some (.arr l) := by
  unfold decodeListCol
  simp only []
  rw [if_neg (encodeJson_arr_ne_empty l)]
  exact decode_encode _

/-! ## Concrete fixtures for witnesses and counterexamples -/

/-- The database right after `initDb`: seeded stages and charisms, no
users, no communities. -/
def dbSeed : DB :=
  { users := []
    etapas := [⟨1, "Iniciação"⟩, ⟨2, "Formação"⟩, ⟨3, "Missão"⟩, ⟨4, "Consolidação"⟩]
    carismas := [⟨1, "Encontro"⟩, ⟨2, "Animação"⟩, ⟨3, "Acolhida"⟩,
                 ⟨4, "Evangelização"⟩, ⟨5, "Liturgia"⟩]
    comunidades := []
    nextUserId := 1
    nextComunidadeId := 1 }

/-- The creation body of the spec round-trip example: candidate list
`[num name:"X"]` and charism list `[num carisma_id:2]`. -/
def bodyXC : ComunidadeBody :=
  { levantados := some [objOf [("name", .str "X")]]
    carismas := some [objOf [("carisma_id", .num 2)]] }

/-! ## C1: create/fetch round-trip of the embedded lists -/

/-- C1 (amended).  For a community created with candidate list `lev` and
charism list `car` (where the new id is fresh and the stage reference is
valid so the insert succeeds), fetching it by the returned id round-trips
both lists content-equal and order-preserving — but the two full variants
expose them differently.  The V0 variant returns them as parsed fields
`levantados`/`carismas` of the response, as the claim states.  The V1
variant returns the raw row: the response has no parsed list fields at
all; it carries the two lists only as serialized text columns
`levantados_json`/`carismas_json`, whose decoding yields the same lists. -/
theorem c1_roundtrip (db : DB) (body : ComunidadeBody) (lev car : List Json)
    (hlev : body.levantados = some lev) (hcar : body.carismas = some car)
    (hfresh : ∀ r ∈ db.comunidades, r.id ≠ db.nextComunidadeId)
    (hfk0 : fkOk db (intOrNull body.etapa_id) = true)
    (hfk1 : fkOk db body.etapa_id = true) :
    (V0.createThenGet db body =
       .ok ⟨200, objOf (rowFieldsList (V0.newRow db.nextComunidadeId body) ++
         [("levantados", .arr (JsonList.ofList lev)),
          ("carismas", .arr (JsonList.ofList car))])⟩ ∧
     (objOf (rowFieldsList (V0.newRow db.nextComunidadeId body) ++
         [("levantados", .arr (JsonList.ofList lev)),
          ("carismas", .arr (JsonList.ofList car))])).getField "levantados"
       = some (.arr (JsonList.ofList lev)) ∧
     (objOf (rowFieldsList (V0.newRow db.nextComunidadeId body) ++
         [("levantados", .arr (JsonList.ofList lev)),
          ("carismas", .arr (JsonList.ofList car))])).getField "carismas"
       = some (.arr (JsonList.ofList car))) ∧
    (V1.createThenGet db body =
       ⟨200, objOf (rowFieldsList (V1.newRow db.nextComunidadeId body))⟩ ∧
     (objOf (rowFieldsList (V1.newRow db.nextComunidadeId body))).getField "levantados" = none ∧
     (objOf (rowFieldsList (V1.newRow db.nextComunidadeId body))).getField "carismas" = none ∧
     (objOf (rowFieldsList (V1.newRow db.nextComunidadeId body))).getField "levantados_json"
       = some (.str (encodeJson (.arr (JsonList.ofList lev)))) ∧
     (objOf (rowFieldsList (V1.newRow db.nextComunidadeId body))).getField "carismas_json"
       = some (.str (encodeJson (.arr (JsonList.ofList car)))) ∧
     decodeJson (encodeJson (.arr (JsonList.ofList lev))) = some (.arr (JsonList.ofList lev)) ∧
     decodeJson (encodeJson (.arr (JsonList.ofList car))) = some (.arr (JsonList.ofList car))) := by
  have hglev : body.levantados.getD [] = lev := by rw [hlev]; rfl
  have hgcar : body.carismas.getD [] = car := by rw [hcar]; rfl
  constructor
  · have hpost : V0.postComunidades db body = .ok
        ({ db with
           comunidades := db.comunidades ++ [V0.newRow db.nextComunidadeId body]
           nextComunidadeId := db.nextComunidadeId + 1 },
         ⟨200, objOf [("id", .num (db.nextComunidadeId : Int))]⟩) := by
      simp only [V0.postComunidades]
      rw [if_pos hfk0]
    have hfind : (db.comunidades ++ [V0.newRow db.nextComunidadeId body]).find?
        (fun r => r.id == db.nextComunidadeId) = some (V0.newRow db.nextComunidadeId body) :=
      find?_append_fresh hfresh _ rfl
    have hrowp : V0.rowWithParsed (V0.newRow db.nextComunidadeId body) =
        some (objOf (rowFieldsList (V0.newRow db.nextComunidadeId body) ++
          [("levantados", .arr (JsonList.ofList lev)),
           ("carismas", .arr (JsonList.ofList car))])) := by
      simp only [V0.rowWithParsed, V0.newRow]
      rw [hglev, hgcar, decodeListCol_encode, decodeListCol_encode]
    refine ⟨?_, ?_, ?_⟩
    · simp only [V0.createThenGet, hpost, V0.getComunidadeById, hfind, hrowp]
    · rfl
    · rfl
  · have hpost1 : V1.postComunidades db body =
        ({ db with
           comunidades := db.comunidades ++ [V1.newRow db.nextComunidadeId body]
           nextComunidadeId := db.nextComunidadeId + 1 },
         ⟨200, objOf (rowFieldsList (V1.newRow db.nextComunidadeId body))⟩) := by
      simp only [V1.postComunidades]
      rw [if_pos hfk1]
    have hfind1 : (db.comunidades ++ [V1.newRow db.nextComunidadeId body]).find?
        (fun r => r.id == db.nextComunidadeId) = some (V1.newRow db.nextComunidadeId body) :=
      find?_append_fresh hfresh _ rfl
    refine ⟨?_, rfl, rfl, ?_, ?_, decode_encode _, decode_encode _⟩
    · simp only [V1.createThenGet, hpost1, V1.getComunidadeById, hfind1]
    · rw [← hglev]
      rfl
    · rw [← hgcar]
      rfl

/-- C1 counterexample.  The claim as stated — the GET response carries the
two lists as parsed fields — is false on the V1 variant: creating the
community of the spec example and fetching it succeeds (status 200), yet
the response has no `levantados` or `carismas` field; only the raw
serialized columns are present. -/
theorem c1_counterexample :
    (V1.createThenGet dbSeed bodyXC).status = 200 ∧
    (V1.createThenGet dbSeed bodyXC).body.getField "levantados" = none ∧
    (V1.createThenGet dbSeed bodyXC).body.getField "carismas" = none ∧
    (V1.createThenGet dbSeed bodyXC).body.getField "levantados_json" =
      some (.str "[\x7b\"name\":\"X\"\x7d]") := by
  exact ⟨rfl, rfl, rfl, rfl⟩

/-- C1 witness: the amended theorem applied to the spec example on a fresh
database. -/
theorem c1_witness :
    V0.createThenGet dbSeed bodyXC =
      .ok ⟨200, objOf (rowFieldsList (V0.newRow dbSeed.nextComunidadeId bodyXC) ++
        [("levantados", .arr (JsonList.ofList [objOf [("name", .str "X")]])),
         ("carismas", .arr (JsonList.ofList [objOf [("carisma_id", .num 2)]]))])⟩ :=
  (c1_roundtrip dbSeed bodyXC [objOf [("name", .str "X")]] [objOf [("carisma_id", .num 2)]]
    rfl rfl (by simp [dbSeed]) (by decide) (by decide)).1.1

/-! ## C2: reads of the embedded list columns -/

/-- A stored row whose `levantados_json` column holds malformed text. -/
def rowMalformed : ComunidadeRow :=
  { V0.newRow 1 {} with levantados_json := some "not json" }

def dbMalformed : DB :=
  { dbSeed with comunidades := [rowMalformed], nextComunidadeId := 2 }

/-- C2 counterexample.  Malformed stored text is not treated as an empty
list: both the list read and the fetch-by-id read fail fatally (the
`JSON.parse` exception escapes the handler), directly contradicting the
claim that no read operation fails fatally on malformed stored text. -/
theorem c2_counterexample :
    V0.getComunidades dbMalformed = .error () ∧
    V0.getComunidadeById dbMalformed 1 = .error () :=
  ⟨rfl, rfl⟩

/-- C2 (amended).  The `|| '[]'` guard only covers an absent text: a NULL
or empty-string stored column is decoded as the empty list and reads of
such rows succeed, returning empty `levantados`/`carismas` fields; malformed
non-empty stored text instead makes the decode throw, so the read fails
rather than yielding an empty list. -/
theorem c2_absent_text_empty_list (db : DB)
    (h : ∀ r ∈ db.comunidades,
      (r.levantados_json = none ∨ r.levantados_json = some "") ∧
      (r.carismas_json = none ∨ r.carismas_json = some "")) :
    decodeListCol none = some (.arr .nil) ∧
    decodeListCol (some "") = some (.arr .nil) ∧
    (∀ r ∈ db.comunidades, V0.rowWithParsed r =
      some (objOf (rowFieldsList r ++
        [("levantados", .arr .nil), ("carismas", .arr .nil)]))) ∧
    V0.getComunidades db =
      .ok ⟨200, .arr (JsonList.ofList (db.comunidades.reverse.map fun r =>
        objOf (rowFieldsList r ++
          [("levantados", .arr .nil), ("carismas", .arr .nil)])))⟩ := by
  have hrow : ∀ r ∈ db.comunidades, V0.rowWithParsed r =
      some (objOf (rowFieldsList r ++
        [("levantados", .arr .nil), ("carismas", .arr .nil)])) := by
    intro r hr
    obtain ⟨h1, h2⟩ := h r hr
    have e1 : decodeListCol r.levantados_json = some (.arr .nil) := by
      rcases h1 with h1 | h1 <;> rw [h1] <;> rfl
    have e2 : decodeListCol r.carismas_json = some (.arr .nil) := by
      rcases h2 with h2 | h2 <;> rw [h2] <;> rfl
    simp only [V0.rowWithParsed, e1, e2]
  refine ⟨rfl, rfl, hrow, ?_⟩
  simp only [V0.getComunidades]
  rw [optMapList_eq_map db.comunidades.reverse fun r hr => hrow r (List.mem_reverse.mp hr)]

/-- A stored row with a NULL candidates column and an empty-text charism
column. -/
def rowEmptyCols : ComunidadeRow :=
  { V0.newRow 1 {} with levantados_json := none, carismas_json := some "" }

def dbEmptyCols : DB :=
  { dbSeed with comunidades := [rowEmptyCols], nextComunidadeId := 2 }

/-- C2 witness: the amended theorem applied to a row with NULL and empty
stored texts. -/
theorem c2_witness :
    V0.getComunidades dbEmptyCols =
      .ok ⟨200, .arr (JsonList.ofList (dbEmptyCols.comunidades.reverse.map fun r =>
        objOf (rowFieldsList r ++
          [("levantados", .arr .nil), ("carismas", .arr .nil)])))⟩ :=
  (c2_absent_text_empty_list dbEmptyCols (by decide)).2.2.2

/-! ## C3: login failure indistinguishability -/

def userA : UserRow := ⟨1, "Alice", "a@b", bcryptHash "pw", false⟩

def dbUser : DB := { dbSeed with users := [userA], nextUserId := 2 }

/-- C3 counterexample.  The two login failure modes are observably
distinguishable: an unknown email answers with body
`error = "Usuário não encontrado"` while a wrong password for a known
email answers with body `error = "Senha incorreta"` — the two responses
differ, so the response does reveal which check failed. -/
theorem c3_counterexample :
    V0.login dbUser "x@y" "pw" 0 = ⟨400, errJson "Usuário não encontrado"⟩ ∧
    V0.login dbUser "a@b" "wrong" 0 = ⟨400, errJson "Senha incorreta"⟩ ∧
    V0.login dbUser "x@y" "pw" 0 ≠ V0.login dbUser "a@b" "wrong" 0 := by
  refine ⟨rfl, rfl, ?_⟩
  decide

/-- C3 (amended).  Both login failure modes share the status code 400 and
a JSON error body, but the bodies are the two distinct fixed messages, so
the two failure cases are distinguishable by body (only the status code is
common). -/
theorem c3_login_failures (db : DB) (email password : String) (now : Nat) :
    (db.users.find? (fun u => u.email == email) = none →
      V0.login db email password now = ⟨400, errJson "Usuário não encontrado"⟩) ∧
    (∀ u, db.users.find? (fun u2 => u2.email == email) = some u →
      bcryptCompare password u.password = false →
      V0.login db email password now = ⟨400, errJson "Senha incorreta"⟩) ∧
    errJson "Usuário não encontrado" ≠ errJson "Senha incorreta" := by
  refine ⟨?_, ?_, by decide⟩
  · intro hfind
    simp only [V0.login, hfind]
  · intro u hfind hcmp
    simp [V0.login, hfind, hcmp]

/-- C3 witness: the amended theorem applied to a one-user database, once
per failure mode. -/
theorem c3_witness :
    V0.login dbUser "x@y" "pw" 0 = ⟨400, errJson "Usuário não encontrado"⟩ ∧
    V0.login dbUser "a@b" "wrong" 0 = ⟨400, errJson "Senha incorreta"⟩ :=
  ⟨(c3_login_failures dbUser "x@y" "pw" 0).1 (by decide),
   (c3_login_failures dbUser "a@b" "wrong" 0).2.1 userA (by decide) (by decide)⟩

/-! ## C4: the session guard -/

/-- C4 (amended).  The guard returns 401 when the header is absent or
empty, when (first variant) it does not split on single spaces into exactly
two words, or when the token word fails signature/expiry verification;
otherwise the decoded claims are attached and the handler runs.  The scheme
word is never compared against `Bearer`: in the first variant any two-word
header whose second word verifies is accepted, and in the other two
variants any header whose second space-separated word verifies is
accepted. -/
theorem c4_guard (h : Option String) (now : Nat) :
    (V0.verificarToken none now = .denied ⟨401, errJson "Sem token"⟩) ∧
    (V0.verificarToken (some "") now = .denied ⟨401, errJson "Sem token"⟩) ∧
    (∀ s, h = some s → s ≠ "" → (splitStr s ' ').length ≠ 2 →
      V0.verificarToken h now = .denied ⟨401, errJson "Token inválido"⟩) ∧
    (∀ s a t, h = some s → s ≠ "" → splitStr s ' ' = [a, t] →
      (jwtVerify t SECRET now = none →
        V0.verificarToken h now = .denied ⟨401, errJson "Token inválido"⟩) ∧
      (∀ c, jwtVerify t SECRET now = some c → V0.verificarToken h now = .allowed c)) ∧
    (S.verificarToken none now = .denied ⟨401, errJson "Sem token"⟩) ∧
    (S.verificarToken (some "") now = .denied ⟨401, errJson "Sem token"⟩) ∧
    (∀ s a, h = some s → s ≠ "" → splitStr s ' ' = [a] →
      S.verificarToken h now = .denied ⟨401, errJson "Token inválido"⟩) ∧
    (∀ s pre t rest, h = some s → s ≠ "" → splitStr s ' ' = pre :: t :: rest →
      (jwtVerify t SECRET now = none →
        S.verificarToken h now = .denied ⟨401, errJson "Token inválido"⟩) ∧
      (∀ c, jwtVerify t SECRET now = some c → S.verificarToken h now = .allowed c)) := by
  refine ⟨rfl, rfl, ?_, ?_, rfl, rfl, ?_, ?_⟩
  · intro s hs hne hlen
    subst hs
    simp only [V0.verificarToken]
    rw [if_neg hne]
    rcases hsp : splitStr s ' ' with _ | ⟨a, _ | ⟨b, _ | ⟨c3, tl⟩⟩⟩
    · rfl
    · rfl
    · exact absurd (by rw [hsp]; rfl) hlen
    · rfl
  · intro s a t hs hne hsp
    subst hs
    constructor
    · intro hv
      simp only [V0.verificarToken]
      rw [if_neg hne, hsp]
      simp only [hv]
    · intro c hv
      simp only [V0.verificarToken]
      rw [if_neg hne, hsp]
      simp only [hv]
  · intro s a hs hne hsp
    subst hs
    simp only [S.verificarToken]
    rw [if_neg hne, hsp]
  · intro s pre t rest hs hne hsp
    subst hs
    constructor
    · intro hv
      simp only [S.verificarToken]
      rw [if_neg hne, hsp]
      simp only [hv]
    · intro c hv
      simp only [S.verificarToken]
      rw [if_neg hne, hsp]
      simp only [hv]

/-- A valid session token for user 1, signed with the fallback secret at
time 0. -/
def tokU : String := jwtSign ⟨1, "a@b", false⟩ SECRET 0

/-- C4 counterexample.  A header whose scheme word is `Foo` rather than
`Bearer`, carrying a valid token as its second word, is not of the form
`Bearer <token>`, yet both guard variants attach the claims and let the
handler run instead of returning 401. -/
theorem c4_counterexample :
    (splitStr ("Foo " ++ tokU) ' ').head? = some "Foo" ∧
    V0.verificarToken (some ("Foo " ++ tokU)) 0 = .allowed ⟨1, "a@b", false⟩ ∧
    S.verificarToken (some ("Foo " ++ tokU)) 0 = .allowed ⟨1, "a@b", false⟩ := by
  refine ⟨by decide, by decide, by decide⟩

/-- C4 witness: the amended theorem applied, for each guard variant, to an
absent header, an empty header, a one-word header, an invalid token and a
valid two-word header. -/
theorem c4_witness :
    V0.verificarToken none 0 = .denied ⟨401, errJson "Sem token"⟩ ∧
    V0.verificarToken (some "Bearer") 0 = .denied ⟨401, errJson "Token inválido"⟩ ∧
    V0.verificarToken (some ("Bearer " ++ tokU)) 0 = .allowed ⟨1, "a@b", false⟩ ∧
    V0.verificarToken (some "Bearer bad") 0 = .denied ⟨401, errJson "Token inválido"⟩ ∧
    S.verificarToken none 0 = .denied ⟨401, errJson "Sem token"⟩ ∧
    S.verificarToken (some "") 0 = .denied ⟨401, errJson "Sem token"⟩ ∧
    S.verificarToken (some "Bearer") 0 = .denied ⟨401, errJson "Token inválido"⟩ ∧
    S.verificarToken (some "Bearer bad") 0 = .denied ⟨401, errJson "Token inválido"⟩ ∧
    S.verificarToken (some ("Bearer " ++ tokU)) 0 = .allowed ⟨1, "a@b", false⟩ :=
  ⟨(c4_guard none 0).1,
   (c4_guard (some "Bearer") 0).2.2.1 "Bearer" rfl (by decide) (by decide),
   ((c4_guard (some ("Bearer " ++ tokU)) 0).2.2.2.1 ("Bearer " ++ tokU) "Bearer" tokU
      rfl (by decide) (by decide)).2 ⟨1, "a@b", false⟩ (by decide),
   ((c4_guard (some "Bearer bad") 0).2.2.2.1 "Bearer bad" "Bearer" "bad"
      rfl (by decide) (by decide)).1 (by decide),
   (c4_guard none 0).2.2.2.2.1,
   (c4_guard (some "") 0).2.2.2.2.2.1,
   (c4_guard (some "Bearer") 0).2.2.2.2.2.2.1 "Bearer" "Bearer" rfl (by decide) (by decide),
   ((c4_guard (some "Bearer bad") 0).2.2.2.2.2.2.2 "Bearer bad" "Bearer" "bad" []
      rfl (by decide) (by decide)).1 (by decide),
   ((c4_guard (some ("Bearer " ++ tokU)) 0).2.2.2.2.2.2.2 ("Bearer " ++ tokU) "Bearer" tokU []
      rfl (by decide) (by decide)).2 ⟨1, "a@b", false⟩ (by decide)⟩

/-! ## C5: create defaults -/

/-- C5 (amended).  On create, both variants store an absent embedded list
as the serialized empty list `"[]"`.  Absent numeric fields diverge: the
first variant stores 0 (`qtd_total || 0`), while the second variant passes
the raw value through, storing NULL for an absent numeric field. -/
theorem c5_create_defaults (db : DB) (body : ComunidadeBody) :
    (body.qtd_total = none → (V0.newRow db.nextComunidadeId body).qtd_total = some 0) ∧
    (body.qtd_jovens = none → (V0.newRow db.nextComunidadeId body).qtd_jovens = some 0) ∧
    (body.levantados = none →
      (V0.newRow db.nextComunidadeId body).levantados_json = some (encodeJson (.arr .nil))) ∧
    (body.carismas = none →
      (V0.newRow db.nextComunidadeId body).carismas_json = some (encodeJson (.arr .nil))) ∧
    encodeJson (.arr .nil) = "[]" ∧
    (fkOk db (intOrNull body.etapa_id) = true →
      V0.postComunidades db body = .ok
        ({ db with
           comunidades := db.comunidades ++ [V0.newRow db.nextComunidadeId body]
           nextComunidadeId := db.nextComunidadeId + 1 },
         ⟨200, objOf [("id", .num (db.nextComunidadeId : Int))]⟩)) ∧
    ((V1.newRow db.nextComunidadeId body).qtd_total = body.qtd_total) ∧
    ((V1.newRow db.nextComunidadeId body).qtd_jovens = body.qtd_jovens) ∧
    (body.levantados = none →
      (V1.newRow db.nextComunidadeId body).levantados_json = some (encodeJson (.arr .nil))) ∧
    (body.carismas = none →
      (V1.newRow db.nextComunidadeId body).carismas_json = some (encodeJson (.arr .nil))) ∧
    (fkOk db body.etapa_id = true →
      V1.postComunidades db body =
        ({ db with
           comunidades := db.comunidades ++ [V1.newRow db.nextComunidadeId body]
           nextComunidadeId := db.nextComunidadeId + 1 },
         ⟨200, objOf (rowFieldsList (V1.newRow db.nextComunidadeId body))⟩)) := by
  refine ⟨?_, ?_, ?_, ?_, by decide, ?_, rfl, rfl, ?_, ?_, ?_⟩
  · intro hq
    simp [V0.newRow, hq, intOr]
  · intro hq
    simp [V0.newRow, hq, intOr]
  · intro hl
    simp only [V0.newRow, hl]
    rfl
  · intro hl
    simp only [V0.newRow, hl]
    rfl
  · intro hfk
    simp only [V0.postComunidades]
    rw [if_pos hfk]
  · intro hl
    simp only [V1.newRow, hl]
    rfl
  · intro hl
    simp only [V1.newRow, hl]
    rfl
  · intro hfk
    simp only [V1.postComunidades]
    rw [if_pos hfk]

/-- C5 counterexample.  A create with no numeric fields on the second
variant stores NULL, not 0, in `qtd_total` and `qtd_jovens`: the claim
that the stored row has 0 in an absent numeric field is false there. -/
theorem c5_counterexample :
    (V1.postComunidades dbSeed {}).1.comunidades = [V1.newRow 1 {}] ∧
    (V1.newRow 1 {}).qtd_total = none ∧
    ¬ (V1.newRow 1 {}).qtd_total = some 0 ∧
    (V1.newRow 1 {}).qtd_jovens = none ∧
    (V1.newRow 1 {}).levantados_json = some "[]" := by
  decide

/-- C5 witness: the amended theorem applied to an empty create body on the
seeded database. -/
theorem c5_witness :
    (V0.newRow dbSeed.nextComunidadeId ({} : ComunidadeBody)).qtd_total = some 0 ∧
    (V0.newRow dbSeed.nextComunidadeId ({} : ComunidadeBody)).levantados_json
      = some (encodeJson (.arr .nil)) ∧
    (V1.newRow dbSeed.nextComunidadeId ({} : ComunidadeBody)).qtd_total
      = ({} : ComunidadeBody).qtd_total ∧
    (V1.newRow dbSeed.nextComunidadeId ({} : ComunidadeBody)).carismas_json
      = some (encodeJson (.arr .nil)) :=
  ⟨(c5_create_defaults dbSeed {}).1 rfl,
   (c5_create_defaults dbSeed {}).2.2.1 rfl,
   (c5_create_defaults dbSeed {}).2.2.2.2.2.2.1,
   (c5_create_defaults dbSeed {}).2.2.2.2.2.2.2.2.2.1 rfl⟩

/-! ## C6: the charism report -/

theorem itemKey_of_not_null {i : Json} (h : i.isNull = false) :
    V0.itemKey i = .ok (V0.itemKeyD i) := by
  cases i with
  | null => simp [Json.isNull] at h
  | bool b => rfl
  | num n => rfl
  | str s => rfl
  | arr l => rfl
  | obj fs => rfl

theorem tallyList_ok (items : List Json) :
    ∀ m, (∀ i ∈ items, i.isNull = false) →
      ∃ m2, V0.tallyList items m = .ok m2 ∧
        ∀ k, m2 k = m k + items.countP (fun i => V0.itemKeyD i == k) := by
  induction items with
  | nil =>
    intro m _
    exact ⟨m, rfl, fun k => by simp⟩
  | cons i is ih =>
    intro m h
    have hi : i.isNull = false := h i (by simp)
    obtain ⟨m2, hok, hcount⟩ :=
      ih (fun k2 => if k2 = V0.itemKeyD i then m (V0.itemKeyD i) + 1 else m k2)
        (fun j hj => h j (by simp [hj]))
    refine ⟨m2, ?_, ?_⟩
    · simp only [V0.tallyList, itemKey_of_not_null hi]
      exact hok
    · intro k
      rw [hcount k]
      by_cases hk : k = V0.itemKeyD i
      · subst hk
        rw [if_pos rfl, List.countP_cons]
        have hself : (V0.itemKeyD i == V0.itemKeyD i) = true := beq_self_eq_true _
        rw [hself, if_pos rfl]
        omega
      · have hne : (V0.itemKeyD i == k) = false := by
          simp only [beq_eq_false_iff_ne, ne_eq]
          exact fun he => hk he.symm
        rw [if_neg hk, List.countP_cons, hne, if_neg (by decide)]
        omega

theorem tallyRows_ok (rows : List ComunidadeRow) :
    ∀ m, (∀ r ∈ rows, (V0.decodeArr r.carismas_json).isOk = true) →
      (∀ r ∈ rows, ∀ i ∈ V0.rowItemsD r, i.isNull = false) →
      ∃ m2, V0.tallyRows rows m = .ok m2 ∧
        ∀ k, m2 k = m k +
          ((rows.map V0.rowItemsD).flatten.countP fun i => V0.itemKeyD i == k) := by
  induction rows with
  | nil =>
    intro m _ _
    exact ⟨m, rfl, fun k => by simp⟩
  | cons r rs ih =>
    intro m hdec hnn
    have hr : V0.decodeArr r.carismas_json = .ok (V0.rowItemsD r) := by
      have hok := hdec r (by simp)
      cases hd : V0.decodeArr r.carismas_json with
      | error e => rw [hd] at hok; simp [Except.isOk, Except.toBool] at hok
      | ok l => simp [V0.rowItemsD, hd]
    obtain ⟨m1, hok1, hc1⟩ := tallyList_ok (V0.rowItemsD r) m (hnn r (by simp))
    obtain ⟨m2, hok2, hc2⟩ := ih m1 (fun r2 h2 => hdec r2 (by simp [h2]))
      (fun r2 h2 => hnn r2 (by simp [h2]))
    refine ⟨m2, ?_, ?_⟩
    · simp only [V0.tallyRows, hr, hok1, hok2]
    · intro k
      rw [hc2 k, hc1 k]
      simp only [List.map_cons, List.flatten_cons, List.countP_append]
      omega

theorem map_congr_mem {l : List α} {f g : α → β} (h : ∀ x ∈ l, f x = g x) :
    l.map f = l.map g := by
  induction l with
  | nil => rfl
  | cons x xs ih =>
    simp only [List.map_cons, h x (by simp)]
    rw [ih fun y hy => h y (by simp [hy])]

/-- The number of occurrences of charism id `cid` across all communities
decoded charism-association lists, keyed by the JavaScript property-key
coercion the tally uses. -/
def charismOccurrences (db : DB) (cid : Nat) : Nat :=
  (db.comunidades.map V0.rowItemsD).flatten.countP fun i =>
    V0.itemKeyD i == intToString (cid : Int)

/-- C6.  When the caller is an admin and every stored charism list decodes
to an array of non-null items (the only runs on which the handler
completes), the charism report returns exactly one entry per charism of
the enumeration, in enumeration order, each carrying the charism name and
the number of occurrences of that charism id across all communities
decoded lists; charisms referenced by no community appear with total 0. -/
theorem c6_charism_report (db : DB) (u : Claims) (hadmin : u.is_admin = true)
    (hdec : ∀ r ∈ db.comunidades, (V0.decodeArr r.carismas_json).isOk = true)
    (hnn : ∀ r ∈ db.comunidades, ∀ i ∈ V0.rowItemsD r, i.isNull = false) :
    V0.relatorioCarismas db u =
      .ok ⟨200, .arr (JsonList.ofList (db.carismas.map fun c =>
        objOf [("nome", .str c.nome),
               ("total", .num (charismOccurrences db c.id : Int))]))⟩ ∧
    (db.carismas.map fun c =>
      objOf [("nome", .str c.nome),
             ("total", .num (charismOccurrences db c.id : Int))]).length
      = db.carismas.length := by
  obtain ⟨m2, hok, hc⟩ := tallyRows_ok db.comunidades (fun _ => 0) hdec hnn
  refine ⟨?_, by simp⟩
  simp only [V0.relatorioCarismas, hadmin, not_true, if_neg, hok]
  rw [if_neg (by simp)]
  have hmap : db.carismas.map (fun c =>
      objOf [("nome", .str c.nome), ("total", .num (m2 (intToString (c.id : Int)) : Int))])
      = db.carismas.map (fun c =>
      objOf [("nome", .str c.nome), ("total", .num (charismOccurrences db c.id : Int))]) := by
    apply map_congr_mem
    intro c _
    have := hc (intToString (c.id : Int))
    simp only [Nat.zero_add] at this
    rw [this]
    rfl
  rw [hmap]

def rowC2a : ComunidadeRow := V0.newRow 1 { carismas := some [objOf [("carisma_id", .num 2)]] }

def rowC2b : ComunidadeRow := V0.newRow 2 { carismas := some [objOf [("carisma_id", .num 2)]] }

def dbReport : DB := { dbSeed with comunidades := [rowC2a, rowC2b], nextComunidadeId := 3 }

def admClaims : Claims := ⟨1, "admin@x", true⟩

/-- C6 witness: the report theorem applied to two communities referencing
charism 2 and none referencing charism 1; id 2 totals 2 and id 1 totals
0. -/
theorem c6_witness :
    (V0.relatorioCarismas dbReport admClaims =
      .ok ⟨200, .arr (JsonList.ofList (dbReport.carismas.map fun c =>
        objOf [("nome", .str c.nome),
               ("total", .num (charismOccurrences dbReport c.id : Int))]))⟩) ∧
    charismOccurrences dbReport 2 = 2 ∧
    charismOccurrences dbReport 1 = 0 :=
  ⟨(c6_charism_report dbReport admClaims rfl (by decide) (by decide)).1,
   by decide, by decide⟩

/-! ## C7: registering the same email twice -/

/-- The database state after a successful register call. -/
def dbAfterRegister (db : DB) (b : RegisterBody) : DB :=
  { db with users := db.users ++ [V0.mkUser db b], nextUserId := db.nextUserId + 1 }

/-- C7.  When the first register call succeeds (email and password
present, email fresh), it appends exactly one user row; a second register
call with the same email returns the 400 conflict response and leaves the
database — in particular the first user row — completely unchanged. -/
theorem c7_register_conflict (db : DB) (b1 b2 : RegisterBody) (now1 now2 : Nat)
    (he : truthyS b1.email = true) (hp : truthyS b1.password = true)
    (hfresh : ∀ u ∈ db.users, u.email ≠ b1.email.getD "")
    (he2 : b2.email = b1.email) (hp2 : truthyS b2.password = true) :
    V0.register db b1 now1 =
      (dbAfterRegister db b1,
       ⟨200, objOf [("token", .str (gerarToken (V0.mkUser db b1) now1)),
                    ("user", objOf [("id", .num ((V0.mkUser db b1).id : Int)),
                                    ("email", .str (V0.mkUser db b1).email),
                                    ("is_admin", .bool (V0.mkUser db b1).is_admin)])]⟩) ∧
    V0.register (dbAfterRegister db b1) b2 now2 =
      (dbAfterRegister db b1, ⟨400, errJson "Email já cadastrado"⟩) ∧
    V0.mkUser db b1 ∈ (dbAfterRegister db b1).users := by
  have hany : db.users.any (fun v => v.email == (V0.mkUser db b1).email) = false := by
    rw [List.any_eq_false]
    intro v hv
    simp only [beq_iff_eq]
    exact hfresh v hv
  refine ⟨?_, ?_, by simp [dbAfterRegister]⟩
  · simp only [V0.register]
    rw [if_neg (by simp [he, hp]), if_neg (by simp [hany])]
    rfl
  · have hmail2 : (V0.mkUser (dbAfterRegister db b1) b2).email = (V0.mkUser db b1).email := by
      simp [V0.mkUser, he2]
    have hany2 : (dbAfterRegister db b1).users.any
        (fun v => v.email == (V0.mkUser (dbAfterRegister db b1) b2).email) = true := by
      rw [List.any_eq_true]
      refine ⟨V0.mkUser db b1, by simp [dbAfterRegister], ?_⟩
      rw [hmail2]
      exact beq_self_eq_true _
    simp only [V0.register]
    rw [if_neg (by simp [he2, he, hp2]), if_pos (by simp [hany2])]

def regBody1 : RegisterBody := { name := some "Alice", email := some "a@b", password := some "pw" }

def regBody2 : RegisterBody := { name := some "Eve", email := some "a@b", password := some "other" }

/-- C7 witness: registering `a@b` twice on the seeded database; the second
call conflicts and returns the database of the first call unchanged. -/
theorem c7_witness :
    V0.register (dbAfterRegister dbSeed regBody1) regBody2 1 =
      (dbAfterRegister dbSeed regBody1, ⟨400, errJson "Email já cadastrado"⟩) :=
  (c7_register_conflict dbSeed regBody1 regBody2 0 1
    (by decide) (by decide) (by decide) rfl (by decide)).2.1

/-! ## C8: self-update field retention and password hashing -/

theorem find?_pred (p : α → Bool) {l : List α} {a : α} (h : l.find? p = some a) :
    p a = true := by
  induction l with
  | nil => cases h
  | cons x xs ih =>
    cases hpx : p x with
    | true =>
      simp only [List.find?, hpx] at h
      have hx := Option.some.inj h
      subst hx
      exact hpx
    | false =>
      simp only [List.find?, hpx] at h
      exact ih h

/-- C8.  On a successful self-update (user found, no email conflict), the
response is `{ok:true}` and the stored row keeps every omitted field at
its prior value; a provided non-empty password is stored re-hashed and the
stored value is never the plaintext. -/
theorem c8_update_self (db : DB) (uid : Nat) (body : UserUpdateBody) (u : UserRow)
    (hu : db.users.find? (fun v => v.id == uid) = some u)
    (hnc : db.users.any
      (fun v => !(v.id == uid) && (v.email == (V0.updatedUser u body).email)) = false) :
    (V0.updateUser db uid body).2 = ⟨200, okJson⟩ ∧
    (V0.updateUser db uid body).1.users.find? (fun v => v.id == uid)
      = some (V0.updatedUser u body) ∧
    (body.name = none → (V0.updatedUser u body).name = u.name) ∧
    (body.email = none → (V0.updatedUser u body).email = u.email) ∧
    (body.password = none → (V0.updatedUser u body).password = u.password) ∧
    (∀ p, body.password = some p → p ≠ "" →
      (V0.updatedUser u body).password = bcryptHash p ∧
      (V0.updatedUser u body).password ≠ p) := by
  have hpu : (u.id == uid) = true := find?_pred (fun v : UserRow => v.id == uid) hu
  have hstep : V0.updateUser db uid body =
      ({ db with users := db.users.map fun v =>
           if v.id == uid then V0.updatedUser v body else v },
       ⟨200, okJson⟩) := by
    simp only [V0.updateUser, hu]
    rw [if_neg (by rw [hnc]; simp)]
  refine ⟨by rw [hstep], ?_, ?_, ?_, ?_, ?_⟩
  · rw [hstep]
    have hpres : ∀ v : UserRow,
        ((if v.id == uid then V0.updatedUser v body else v).id == uid) = (v.id == uid) := by
      intro v
      by_cases hv : (v.id == uid) = true
      · rw [if_pos hv]
        exact hv.symm ▸ hv
      · rw [if_neg hv]
    rw [show ({ db with users := db.users.map fun v =>
          if v.id == uid then V0.updatedUser v body else v } : DB).users
        = db.users.map (fun v => if v.id == uid then V0.updatedUser v body else v) from rfl]
    rw [find?_map_preserve hpres, hu, Option.map_some', hpu, if_pos rfl]
  · intro h
    simp [V0.updatedUser, strOr, h]
  · intro h
    simp [V0.updatedUser, strOr, h]
  · intro h
    simp [V0.updatedUser, truthyS, h]
  · intro p hp hne
    have ht : truthyS body.password = true := by
      rw [hp]
      simp [truthyS, hne]
    have hpw : (V0.updatedUser u body).password = bcryptHash p := by
      simp only [V0.updatedUser]
      rw [ht, if_pos rfl, hp]
      rfl
    refine ⟨hpw, ?_⟩
    rw [hpw]
    exact bcryptHash_ne_plaintext p

def updBody : UserUpdateBody := { password := some "new" }

/-- C8 witness: updating only the password of the stored user re-hashes it
and keeps name and email. -/
theorem c8_witness :
    (V0.updateUser dbUser 1 updBody).1.users.find? (fun v => v.id == 1)
      = some (V0.updatedUser userA updBody) ∧
    (V0.updatedUser userA updBody).name = userA.name ∧
    (V0.updatedUser userA updBody).email = userA.email ∧
    (V0.updatedUser userA updBody).password = bcryptHash "new" ∧
    (V0.updatedUser userA updBody).password ≠ "new" :=
  ⟨(c8_update_self dbUser 1 updBody userA (by decide) (by decide)).2.1,
   (c8_update_self dbUser 1 updBody userA (by decide) (by decide)).2.2.1 rfl,
   (c8_update_self dbUser 1 updBody userA (by decide) (by decide)).2.2.2.1 rfl,
   ((c8_update_self dbUser 1 updBody userA (by decide) (by decide)).2.2.2.2.2
     "new" rfl (by decide)).1,
   ((c8_update_self dbUser 1 updBody userA (by decide) (by decide)).2.2.2.2.2
     "new" rfl (by decide)).2⟩

/-! ## C9: delete is an idempotent no-op on missing ids -/

/-- C9.  Deleting any id always answers `{ok:true}` in both variants;
when no community carries the id the database is unchanged, and in every
case exactly the rows with that id disappear while all other rows (and
the other tables) are untouched. -/
theorem c9_delete (db : DB) (idv : Nat) :
    (V0.deleteComunidades db idv).2 = ⟨200, okJson⟩ ∧
    (V1.deleteComunidades db idv).2 = ⟨200, okJson⟩ ∧
    ((∀ r ∈ db.comunidades, r.id ≠ idv) → (V0.deleteComunidades db idv).1 = db) ∧
    ((∀ r ∈ db.comunidades, r.id ≠ idv) → (V1.deleteComunidades db idv).1 = db) ∧
    (∀ r, r ∈ (V0.deleteComunidades db idv).1.comunidades ↔
      (r ∈ db.comunidades ∧ r.id ≠ idv)) ∧
    (∀ r, r ∈ (V1.deleteComunidades db idv).1.comunidades ↔
      (r ∈ db.comunidades ∧ r.id ≠ idv)) ∧
    (V0.deleteComunidades db idv).1.users = db.users := by
  have hfilter : (∀ r ∈ db.comunidades, r.id ≠ idv) →
      db.comunidades.filter (fun r => !(r.id == idv)) = db.comunidades := by
    intro h
    rw [List.filter_eq_self]
    intro a ha
    simp [h a ha]
  refine ⟨rfl, rfl, ?_, ?_, ?_, ?_, rfl⟩
  · intro h
    simp only [V0.deleteComunidades, hfilter h]
  · intro h
    simp only [V1.deleteComunidades, hfilter h]
  · intro r
    simp [V0.deleteComunidades, List.mem_filter]
  · intro r
    simp [V1.deleteComunidades, List.mem_filter]

/-- C9 witness: deleting the nonexistent id 5 from the seeded database
answers `{ok:true}` and leaves the database unchanged, in both variants. -/
theorem c9_witness :
    (V0.deleteComunidades dbSeed 5).2 = ⟨200, okJson⟩ ∧
    (V0.deleteComunidades dbSeed 5).1 = dbSeed ∧
    (V1.deleteComunidades dbSeed 5).1 = dbSeed :=
  ⟨(c9_delete dbSeed 5).1,
   (c9_delete dbSeed 5).2.2.1 (by decide),
   (c9_delete dbSeed 5).2.2.2.1 (by decide)⟩

/-! ## C10: update of a nonexistent id succeeds without touching rows -/

/-- C10.  For an id carried by no community row, PUT answers 200 in both
variants (`{ok:true}` in the first, an empty body in the second) and the
database is unchanged — no row is created or modified — while GET on the
same id answers 404 in both variants. -/
theorem c10_put_nonexistent (db : DB) (idv : Nat) (body : ComunidadeBody)
    (h : ∀ r ∈ db.comunidades, r.id ≠ idv) :
    V0.putComunidades db idv body = .ok (db, ⟨200, okJson⟩) ∧
    V1.putComunidades db idv body = (db, ⟨200, .null⟩) ∧
    V0.getComunidadeById db idv = .ok ⟨404, errJson "Não encontrado"⟩ ∧
    V1.getComunidadeById db idv = ⟨404, errJson "Comunidade não encontrada"⟩ := by
  have hany : db.comunidades.any (fun r => r.id == idv) = false := by
    rw [List.any_eq_false]
    intro r hr
    simp [h r hr]
  have hfind : db.comunidades.find? (fun r => r.id == idv) = none :=
    List.find?_eq_none.mpr fun r hr => by simp [h r hr]
  refine ⟨?_, ?_, ?_, ?_⟩
  · simp only [V0.putComunidades]
    rw [if_neg (by simp [hany])]
  · simp only [V1.putComunidades, hfind]
  · simp only [V0.getComunidadeById, hfind]
  · simp only [V1.getComunidadeById, hfind]

/-- C10 witness: updating the nonexistent id 7 on the seeded database. -/
theorem c10_witness :
    V0.putComunidades dbSeed 7 bodyXC = .ok (dbSeed, ⟨200, okJson⟩) ∧
    V1.putComunidades dbSeed 7 bodyXC = (dbSeed, ⟨200, .null⟩) ∧
    V0.getComunidadeById dbSeed 7 = .ok ⟨404, errJson "Não encontrado"⟩ :=
  ⟨(c10_put_nonexistent dbSeed 7 bodyXC (by decide)).1,
   (c10_put_nonexistent dbSeed 7 bodyXC (by decide)).2.1,
   (c10_put_nonexistent dbSeed 7 bodyXC (by decide)).2.2.1⟩

end Sistema
